import Mathlib

/-!
# Verification of the Phelomia batch job orchestration engine

Shallow embedding of `src/batch_processing.py` (class `BatchProcessor` and
dataclass `BatchJob`).  Python floats (timestamps, progress percentages) are
modelled as exact rationals `ℚ`; Python exceptions are modelled with
`Except`; the pluggable per-file work function (`_process_single_file` is a
placeholder in the source) is a parameter `work : String → Except String
String` (`.error e` models the function raising with message `e`).
-/

namespace Phelomia

/-- `ProcessingStatus` enumeration, `batch_processing.py` lines 21-27. -/
inductive ProcessingStatus
  | pending
  | processing
  | completed
  | failed
  | cancelled
deriving DecidableEq, Repr

/-- The `.value` string of each enum member. -/
def ProcessingStatus.value : ProcessingStatus → String
  | .pending => "pending"
  | .processing => "processing"
  | .completed => "completed"
  | .failed => "failed"
  | .cancelled => "cancelled"

/-- One entry of `job.results`: the dict appended at lines 180-184 (success)
or 188-192 (error).  `tag` is the `"status"` key of the dict; exactly one of
`result` / `errMsg` is populated, matching the two dict shapes. -/
structure FileResult where
  file_path : String
  tag : String
  result : Option String
  errMsg : Option String
deriving DecidableEq, Repr

/-- Dataclass `BatchJob`, lines 30-48.  `__post_init__` turns the `None`
defaults of `results`/`errors` into `[]`, so they are plain lists here. -/
structure BatchJob where
  job_id : String
  file_paths : List String
  analysis_types : List String
  custom_prompt : Option String
  status : ProcessingStatus
  progress : ℚ
  start_time : Option ℚ
  end_time : Option ℚ
  results : List FileResult
  errors : List String
deriving DecidableEq, Repr

/-- The `BatchJob(...)` construction performed by `submit_batch_job`
(lines 91-96): only id, paths, analysis types and prompt are supplied, the
rest take the dataclass defaults. -/
def mkBatchJob (id : String) (paths analyses : List String)
    (prompt : Option String) : BatchJob :=
  { job_id := id
    file_paths := paths
    analysis_types := analyses
    custom_prompt := prompt
    status := .pending
    progress := 0
    start_time := none
    end_time := none
    results := []
    errors := [] }

/-- Processing of one file inside the result-collection loop of
`_process_files_with_progress` (lines 177-199): on success append a
success-tagged dict to `job.results`; on an exception append to `job.errors`
and append an error-tagged dict; then increment `completed_files` (the
second component of the accumulator) and set
`job.progress = (completed_files / total_files) * 100` (line 195). -/
def processFileStep (work : String → Except String String) (total : Nat)
    (acc : BatchJob × Nat) (fp : String) : BatchJob × Nat :=
  let job := acc.1
  let job1 :=
    match work fp with
    | .ok r =>
        { job with results :=
            job.results ++ [FileResult.mk fp "success" (some r) none] }
    | .error e =>
        { job with
            errors := job.errors ++ ["Error processing " ++ fp ++ ": " ++ e]
            results := job.results ++ [FileResult.mk fp "error" none (some e)] }
  let n := acc.2 + 1
  ({ job1 with progress := ((n : ℚ) / (total : ℚ)) * 100 }, n)

/-- One sub-batch (lines 163-199): every file of the slice is submitted to
the pool and the futures are then drained in submission order, so the net
effect on the job record is a left fold of `processFileStep` over the
slice. -/
def processChunk (work : String → Except String String) (total : Nat)
    (acc : BatchJob × Nat) (batch : List String) : BatchJob × Nat :=
  batch.foldl (processFileStep work total) acc

/-- Structural worker for `chunks`: the fuel only bounds the number of
slices (each iteration consumes at least one element when `bs > 0`, so
`fuel = l.length` always suffices); it exists so that the definition is
structurally recursive and reduces inside the kernel. -/
def chunksGo (bs : Nat) : Nat → List α → List (List α)
  | 0, _ => []
  | _ + 1, [] => []
  | fuel + 1, x :: xs => ((x :: xs).take bs) :: chunksGo bs fuel ((x :: xs).drop bs)

/-- The sub-batch slicing `file_paths[i:i+batch_size]` for
`i in range(0, total_files, batch_size)` (lines 162-163).  In Python a zero
step makes `range` raise; we only ever instantiate `bs > 0` and define the
`bs = 0` case as `[]`. -/
def chunks (bs : Nat) (l : List α) : List (List α) :=
  if bs = 0 then [] else chunksGo bs l.length l

/-- `_process_files_with_progress` (lines 154-199): fold `processChunk` over
the sub-batches of `job.file_paths` with `batch_size = min(max_workers, 4)`
(line 160), starting from `completed_files = 0` (line 157). -/
def process_files_with_progress (work : String → Except String String)
    (maxWorkers : Nat) (job : BatchJob) : BatchJob :=
  let total := job.file_paths.length
  let bs := min maxWorkers 4
  ((chunks bs job.file_paths).foldl (processChunk work total) (job, 0)).1

/-- The successful-completion assignments of `_process_batch_job`
(lines 121-123): `status = COMPLETED`, `end_time = time.time()`,
`progress = 100.0`. -/
def completeJob (t : ℚ) (job : BatchJob) : BatchJob :=
  { job with status := .completed, end_time := some t, progress := 100 }

/-- The inner file write of `_save_job_results` (lines 240-264), which can
fail; `writeOk` abstracts whether the filesystem write succeeds. -/
def writeResultsFile (writeOk : Bool) : Except String Unit :=
  if writeOk then .ok () else .error "write failed"

/-- `_save_job_results` (lines 237-269): the whole body is wrapped in
`try/except Exception` whose handler only logs, so a write failure is
absorbed and the call always returns normally, touching nothing. -/
def save_job_results (writeOk : Bool) : Except String Unit :=
  match writeResultsFile writeOk with
  | .ok _ => .ok ()
  | .error _ => .ok ()

/-- `_estimate_completion_time` (lines 304-313).  Python's
`not job.start_time` is true both for `None` and for `0.0`, hence the two
guards; otherwise linear extrapolation from `job.progress` (a percentage)
with a `max(0, ·)` clamp. -/
def estimate_completion_time (now : ℚ) (job : BatchJob) : Option ℚ :=
  match job.start_time with
  | none => none
  | some st =>
      if job.progress = 0 ∨ st = 0 then none
      else
        let elapsed := now - st
        let estimated_total_time := elapsed / (job.progress / 100)
        some (max 0 (estimated_total_time - elapsed))

/-! ## The `BatchProcessor` state

`active_jobs` is a Python dict (insertion-ordered, unique keys) from job id
to `BatchJob` object; `job_history` is a Python list of `BatchJob` objects.
Both collections hold *references*: the very object mutated by the driver.
We model object identity with tokens (indices into an allocation list
`jobs`), so that the aliasing between an active entry, history entries and
the driver's own handle on the job is exact. -/

/-- Python dict insertion: overwrite in place if the key exists, else append. -/
def dictInsert (k : String) (v : Nat) (d : List (String × Nat)) :
    List (String × Nat) :=
  if d.any (fun p => p.1 = k) then
    d.map (fun p => if p.1 = k then (k, v) else p)
  else d ++ [(k, v)]

/-- Python dict lookup (`d[k]` / `k in d`). -/
def dictLookup (k : String) (d : List (String × Nat)) : Option Nat :=
  (d.find? (fun p => p.1 = k)).map (fun p => p.2)

/-- Python `del d[k]` (the key is checked separately where the source does). -/
def dictErase (k : String) (d : List (String × Nat)) : List (String × Nat) :=
  d.filter (fun p => ¬ p.1 = k)

/-- Control state of one job's driver coroutine
(`_process_batch_job` / `_process_files_with_progress`): not yet scheduled;
inside the sub-batch loop with the remaining slices and the
`completed_files` counter; or returned. -/
inductive DriverPhase
  | ready
  | running (remaining : List (List String)) (completed : Nat)
  | done
deriving DecidableEq, Repr

/-- The mutable state of a `BatchProcessor` instance (lines 54-67), plus the
allocation list `jobs` and the per-job driver control states. -/
structure PState where
  max_workers : Nat
  active_jobs : List (String × Nat)
  job_history : List Nat
  jobs : List BatchJob
  driver : List (Nat × DriverPhase)
deriving DecidableEq, Repr

/-- A fresh `BatchProcessor(max_workers = mw)`. -/
def initState (mw : Nat) : PState :=
  { max_workers := mw, active_jobs := [], job_history := [], jobs := []
    driver := [] }

/-- Dereference a token. -/
def jobAt (s : PState) (tok : Nat) : Option BatchJob :=
  s.jobs.get? tok

/-- Overwrite the object a token points to (mutation of the shared record). -/
def setJob (s : PState) (tok : Nat) (j : BatchJob) : PState :=
  { s with jobs := s.jobs.set tok j }

def driverPhase (s : PState) (tok : Nat) : Option DriverPhase :=
  (s.driver.find? (fun p => p.1 = tok)).map (fun p => p.2)

def setPhase (s : PState) (tok : Nat) (ph : DriverPhase) : PState :=
  { s with driver := s.driver.map (fun p => if p.1 = tok then (tok, ph) else p) }

/-- `submit_batch_job` (lines 69-107): build the id from the millisecond
timestamp `tms` (line 88: `f"batch_{int(time.time() * 1000)}"` — no
counter), allocate the record, register it in `active_jobs`, create the
driver task, return the id.  No validation of `file_paths` is performed. -/
def submit_batch_job (tms : Nat) (paths analyses : List String)
    (prompt : Option String) (s : PState) : PState × String :=
  let job_id := "batch_" ++ Nat.repr tms
  let job := mkBatchJob job_id paths analyses prompt
  let tok := s.jobs.length
  ({ s with
      jobs := s.jobs ++ [job]
      active_jobs := dictInsert job_id tok s.active_jobs
      driver := s.driver ++ [(tok, .ready)] },
   job_id)

/-- Start of `_process_batch_job` (lines 111-118): set `status = PROCESSING`
and `start_time`, then enter the sub-batch loop of
`_process_files_with_progress` with `completed_files = 0`. -/
def driver_start (tok : Nat) (t : ℚ) (s : PState) : PState :=
  match driverPhase s tok, jobAt s tok with
  | some .ready, some job =>
      let job1 := { job with status := .processing, start_time := some t }
      let bs := min s.max_workers 4
      setPhase (setJob s tok job1) tok (.running (chunks bs job1.file_paths) 0)
  | _, _ => s

/-- One iteration of the sub-batch loop (lines 162-199): dispatch the next
slice to the pool and drain its futures, updating the shared record.  The
loop consults nothing but its own remaining slices — in particular not
`job.status`, so a cancelled job is processed exactly the same way. -/
def driver_chunk (work : String → Except String String) (tok : Nat)
    (s : PState) : PState :=
  match driverPhase s tok, jobAt s tok with
  | some (.running (c :: rest) n), some job =>
      let total := job.file_paths.length
      let res := processChunk work total (job, n) c
      setPhase (setJob s tok res.1) tok (.running rest res.2)
  | _, _ => s

/-- The mutations of the exception handler on the job record (lines
142-144): `status = FAILED`, `end_time`, `errors.append(str(e))`. -/
def failJob (t : ℚ) (e : String) (job : BatchJob) : BatchJob :=
  { job with
    status := .failed, end_time := some t, errors := job.errors ++ [e] }

/-- The exception handler of `_process_batch_job` (lines 141-152): set
`status = FAILED` and `end_time`, append the message to `errors`, append the
record to history (again, if the `try` block already did), and delete the
active entry only if the key is present. -/
def driver_except (tok : Nat) (t : ℚ) (e : String) (s : PState) : PState :=
  match jobAt s tok with
  | some job =>
      if (dictLookup (failJob t e job).job_id s.active_jobs).isSome then
        setPhase
          { setJob s tok (failJob t e job) with
            job_history := s.job_history ++ [tok]
            active_jobs := dictErase (failJob t e job).job_id s.active_jobs }
          tok .done
      else
        setPhase
          { setJob s tok (failJob t e job) with
            job_history := s.job_history ++ [tok] }
          tok .done
  | none => s

/-- Tail of `_process_batch_job` after the sub-batch loop returns
(lines 120-152): mark the job Completed (`status`, `end_time`,
`progress = 100.0`), save results (`_save_job_results` absorbs write
failures), append the record to `job_history`, then
`del self.active_jobs[job.job_id]` — which raises `KeyError` when the entry
is gone (e.g. after a cancel), sending control to the `except` block. -/
def driver_terminal (tok : Nat) (t : ℚ) (writeOk : Bool) (s : PState) :
    PState :=
  match driverPhase s tok, jobAt s tok with
  | some (.running [] _), some job =>
      match save_job_results writeOk with
      | .error e => driver_except tok t e (setJob s tok (completeJob t job))
      | .ok _ =>
          if (dictLookup (completeJob t job).job_id s.active_jobs).isSome then
            setPhase
              { setJob s tok (completeJob t job) with
                job_history := s.job_history ++ [tok]
                active_jobs :=
                  dictErase (completeJob t job).job_id s.active_jobs }
              tok .done
          else
            -- `del` raised `KeyError('<job_id>')`
            driver_except tok t ("'" ++ (completeJob t job).job_id ++ "'")
              { setJob s tok (completeJob t job) with
                job_history := s.job_history ++ [tok] }
  | _, _ => s

/-- `cancel_job` (lines 315-329): if the id is active, set
`status = CANCELLED` and `end_time`, append the record to history, remove
the active entry and return `True`; otherwise return `False`.  The driver
task is not touched. -/
def cancel_job (job_id : String) (t : ℚ) (s : PState) : PState × Bool :=
  match dictLookup job_id s.active_jobs with
  | some tok =>
      match jobAt s tok with
      | some job =>
          let job1 := { job with status := .cancelled, end_time := some t }
          let s1 := setJob s tok job1
          ({ s1 with
              job_history := s1.job_history ++ [tok]
              active_jobs := dictErase job_id s1.active_jobs }, true)
      | none => (s, false)
  | none => (s, false)

/-- `cleanup_old_jobs` (lines 366-380): keep only history records whose
`end_time` is truthy and greater than the cutoff.  (The deletion of old
result files has no in-memory effect.) -/
def cleanup_old_jobs (cutoff : ℚ) (s : PState) : PState :=
  { s with job_history := s.job_history.filter (fun tok =>
      match jobAt s tok with
      | some job =>
          match job.end_time with
          | some e => decide (¬ e = 0 ∧ cutoff < e)
          | none => false
      | none => false) }

/-- The two dict shapes returned by `get_job_status`: the active projection
(lines 276-285, with an `estimated_completion` key) and the history
projection (lines 290-300, with `end_time` and `processing_time` keys). -/
inductive StatusView
  | activeView (job_id status : String) (progress : ℚ)
      (files_total files_completed errCount : Nat)
      (start_time : Option ℚ) (estimated_completion : Option ℚ)
  | historyView (job_id status : String) (progress : ℚ)
      (files_total files_completed errCount : Nat)
      (start_time end_time : Option ℚ) (processing_time : Option ℚ)
deriving DecidableEq, Repr

/-- The `job_id` key of either projection. -/
def StatusView.jobId : StatusView → String
  | .activeView i _ _ _ _ _ _ _ => i
  | .historyView i _ _ _ _ _ _ _ _ => i

/-- `job.end_time - job.start_time if job.end_time and job.start_time else
None` (lines 299, 252): Python truthiness makes both `None` and `0.0`
falsy. -/
def processing_time_of (job : BatchJob) : Option ℚ :=
  match job.end_time, job.start_time with
  | some e, some st => if e = 0 ∨ st = 0 then none else some (e - st)
  | _, _ => none

/-- The `BatchJob` objects of the history list, in order (the source
iterates `for job in self.job_history`). -/
def historyJobs (s : PState) : List BatchJob :=
  s.job_history.filterMap (jobAt s)

/-- `get_job_status` (lines 271-302): look in `active_jobs` first and
return the active projection; otherwise scan `job_history` front to back
for the first record with a matching id; otherwise `None` — never an
exception.  (An active token is always allocated; the dangling case is
mapped to `None`.) -/
def get_job_status (now : ℚ) (s : PState) (job_id : String) :
    Option StatusView :=
  match dictLookup job_id s.active_jobs with
  | some tok =>
      match jobAt s tok with
      | some job =>
          some (.activeView job.job_id job.status.value job.progress
            job.file_paths.length job.results.length job.errors.length
            job.start_time (estimate_completion_time now job))
      | none => none
  | none =>
      ((historyJobs s).find? (fun j => j.job_id = job_id)).map
        (fun job =>
          .historyView job.job_id job.status.value job.progress
            job.file_paths.length job.results.length job.errors.length
            job.start_time job.end_time (processing_time_of job))

/-! ## Operations, for whole-system invariants -/

/-- One state-mutating operation of the system: a submission, one of the
three phases of a job's driver task (the only interleaving points of the
driver are its suspension points, i.e. sub-batch boundaries), a
cancellation, or a history cleanup.  Status queries and listings read the
state without mutating it. -/
inductive Op
  | submit (tms : Nat) (paths analyses : List String) (prompt : Option String)
  | driverStart (tok : Nat) (t : ℚ)
  | driverChunk (tok : Nat)
  | driverTerminal (tok : Nat) (t : ℚ) (writeOk : Bool)
  | cancel (job_id : String) (t : ℚ)
  | cleanup (cutoff : ℚ)

def Op.isCleanup : Op → Prop
  | .cleanup _ => True
  | _ => False

/-- Effect of an operation on the processor state (return values
discarded). -/
def applyOp (work : String → Except String String) : Op → PState → PState
  | .submit tms paths analyses prompt, s =>
      (submit_batch_job tms paths analyses prompt s).1
  | .driverStart tok t, s => driver_start tok t s
  | .driverChunk tok, s => driver_chunk work tok s
  | .driverTerminal tok t writeOk, s => driver_terminal tok t writeOk s
  | .cancel job_id t, s => (cancel_job job_id t s).1
  | .cleanup cutoff, s => cleanup_old_jobs cutoff s

/-- The record `tok` sits in the history sequence and not in the active
set: the configuration reached by a terminal transition. -/
def Settled (s : PState) (tok : Nat) : Prop :=
  tok ∈ s.job_history ∧ (∀ p ∈ s.active_jobs, p.2 ≠ tok) ∧ tok < s.jobs.length

/-- Every token held in the active set points into the allocation list
(true of every reachable state: `submit_batch_job` registers the token of
the record it has just allocated). -/
def TokensValid (s : PState) : Prop :=
  ∀ p ∈ s.active_jobs, p.2 < s.jobs.length

/-- The operation `op`, applied in state `s`, completes the terminal
transition of record `tok`: either an accepted cancellation of it, or the
driver's own completion block for it.  The side conditions say the active
set maps `tok` under its record's id only, and the token is allocated —
true of every reachable state. -/
def TerminalFor (op : Op) (s : PState) (tok : Nat) : Prop :=
  match op with
  | .cancel id _ =>
      dictLookup id s.active_jobs = some tok ∧
      (∀ p ∈ s.active_jobs, p.2 = tok → p.1 = id) ∧ tok < s.jobs.length
  | .driverTerminal tok2 _ _ =>
      tok2 = tok ∧
      ∃ n job, driverPhase s tok = some (DriverPhase.running [] n) ∧
        jobAt s tok = some job ∧
        (∀ p ∈ s.active_jobs, p.2 = tok → p.1 = job.job_id)
  | _ => False

/-- A one-file-list submission used to witness terminal establishment. -/
def c6Active : PState := (submit_batch_job 3000 [] [] none (initState 4)).1

/-- A state with one active job, for status-query witnesses. -/
def c8State : PState :=
  (submit_batch_job 4000 ["a"] ["document"] none (initState 2)).1

/-- Iterate `driver_chunk` k times: the driver running k further sub-batch
iterations. -/
def driver_chunks (work : String → Except String String) (tok : Nat) :
    Nat → PState → PState
  | 0, s => s
  | k + 1, s => driver_chunks work tok k (driver_chunk work tok s)

/-- The job record's progress value after each individual file update of
`_process_files_with_progress`, starting from the current value: the
sequence of values taken by `job.progress` (line 195) during a run of
`files` with `completed_files` starting at `n`. -/
def progressTrace (work : String → Except String String) (total : Nat)
    (job : BatchJob) (n : Nat) (files : List String) : List ℚ :=
  (files.scanl (processFileStep work total) (job, n)).map
    (fun p => p.1.progress)

/-! ## Decimal representation

`job_id` is built with an f-string from `int(time.time() * 1000)`, i.e.
`Nat.repr`.  We prove `Nat.repr` injective by exhibiting a decimal decode. -/

/-- Decode a decimal digit string (left fold, most significant first). -/
def decodeDigits (l : List Char) : Nat :=
  l.foldl (fun a c => 10 * a + (c.toNat - 48)) 0

/-- Whether a call of the work function raises. -/
def isErr : Except String String → Bool
  | .ok _ => false
  | .error _ => true

/-- A work function that always succeeds (for concrete runs). -/
def workOk : String → Except String String := fun _ => Except.ok "ok"

/-! Concrete two-file run interleaved with a cancellation, for C3:
`BatchProcessor(max_workers=1)` gives `batch_size = 1`, so the files
`["a", "b"]` form two sub-batches.  The driver starts, processes the first
sub-batch, the job is cancelled, and the driver then runs its next
sub-batch iteration. -/

def c3AfterSubmit : PState :=
  (submit_batch_job 1000 ["a", "b"] ["document"] none (initState 1)).1

def c3AfterChunk1 : PState := driver_chunk workOk 0 (driver_start 0 10 c3AfterSubmit)

def c3Cancel : PState × Bool := cancel_job "batch_1000" 11 c3AfterChunk1

def c3AfterChunk2 : PState := driver_chunk workOk 0 c3Cancel.1

/-! Concrete run for C6: a job completes (terminal transition done, record
settled in history), then `cleanup_old_jobs` runs with a cutoff beyond the
job's `end_time`. -/

def c6Settled : PState :=
  driver_terminal 0 20 true
    (driver_start 0 10 ((submit_batch_job 2000 [] [] none (initState 4)).1))

def c6AfterCleanup : PState := cleanup_old_jobs 30 c6Settled

/-! ## Lemmas -/

theorem toDigitsCore_acc (b : Nat) : ∀ (fuel n : Nat) (ds : List Char),
    Nat.toDigitsCore b fuel n ds = Nat.toDigitsCore b fuel n [] ++ ds := by
  intro fuel
  induction fuel with
  | zero => intro n ds; simp [Nat.toDigitsCore]
  | succ f ih =>
      intro n ds
      simp only [Nat.toDigitsCore]
      by_cases h : n / b = 0
      · simp [h]
      · rw [if_neg h, if_neg h, ih (n / b) (Nat.digitChar (n % b) :: ds),
          ih (n / b) [Nat.digitChar (n % b)], List.append_assoc]
        rfl

theorem digitChar_toNat (d : Nat) (h : d < 10) :
    (Nat.digitChar d).toNat = 48 + d := by
  interval_cases d <;> rfl

theorem decodeDigits_append_singleton (l : List Char) (c : Char) :
    decodeDigits (l ++ [c]) = 10 * decodeDigits l + (c.toNat - 48) := by
  simp [decodeDigits, List.foldl_append]

theorem decode_toDigitsCore : ∀ (fuel n : Nat), n < fuel →
    decodeDigits (Nat.toDigitsCore 10 fuel n []) = n := by
  intro fuel
  induction fuel with
  | zero => intro n hn; omega
  | succ f ih =>
      intro n hn
      simp only [Nat.toDigitsCore]
      by_cases h : n / 10 = 0
      · have h10 : n < 10 := by omega
        rw [if_pos h]
        have : decodeDigits [Nat.digitChar (n % 10)] =
            10 * 0 + ((Nat.digitChar (n % 10)).toNat - 48) := rfl
        rw [this, digitChar_toNat _ (Nat.mod_lt _ (by norm_num))]
        omega
      · rw [if_neg h, toDigitsCore_acc, decodeDigits_append_singleton]
        have hlt : n / 10 < f := by
          have : n / 10 < n := Nat.div_lt_self (by omega) (by norm_num)
          omega
        rw [ih (n / 10) hlt, digitChar_toNat _ (Nat.mod_lt _ (by norm_num))]
        omega

theorem Nat_repr_injective : Function.Injective Nat.repr := by
  intro m n h
  have hd : Nat.toDigitsCore 10 (m + 1) m [] = Nat.toDigitsCore 10 (n + 1) n [] := by
    have h2 := congrArg String.data h
    simpa [Nat.repr, Nat.toDigits, List.asString] using h2
  have hm := decode_toDigitsCore (m + 1) m (by omega)
  have hn := decode_toDigitsCore (n + 1) n (by omega)
  rw [← hm, ← hn, hd]

theorem dictLookup_insert_self (k : String) (v : Nat)
    (d : List (String × Nat)) : dictLookup k (dictInsert k v d) = some v := by
  unfold dictInsert dictLookup
  by_cases h : d.any (fun p => p.1 = k) = true
  · rw [if_pos h]
    induction d with
    | nil => simp at h
    | cons a l ih =>
        by_cases ha : a.1 = k
        · simp [List.find?, ha]
        · simp only [List.any_cons, ha] at h
          simp only [List.map_cons, if_neg ha, List.find?, ha]
          simpa [ha] using ih (by simpa [ha] using h)
  · rw [if_neg h]
    induction d with
    | nil => simp [List.find?]
    | cons a l ih =>
        simp only [List.any_cons, Bool.or_eq_true] at h
        push_neg at h
        have ha : ¬ a.1 = k := by
          intro hak
          exact h.1 (by simp [hak])
        simp only [List.cons_append, List.find?, ha]
        simpa [ha] using ih (by simpa using h.2)

theorem chunksGo_nil (bs fuel : Nat) :
    chunksGo bs fuel ([] : List α) = [] := by
  cases fuel <;> rfl

theorem chunksGo_fuel (bs : Nat) (hbs : ¬ bs = 0) :
    ∀ (f1 f2 : Nat) (l : List α), l.length ≤ f1 → l.length ≤ f2 →
      chunksGo bs f1 l = chunksGo bs f2 l := by
  intro f1
  induction f1 with
  | zero =>
      intro f2 l h1 h2
      have hl : l = [] := List.eq_nil_of_length_eq_zero (Nat.le_zero.mp h1)
      subst hl
      rw [chunksGo_nil, chunksGo_nil]
  | succ f ih =>
      intro f2 l h1 h2
      cases l with
      | nil => rw [chunksGo_nil, chunksGo_nil]
      | cons x xs =>
          cases f2 with
          | zero => simp at h2
          | succ f2' =>
              show ((x :: xs).take bs) :: chunksGo bs f ((x :: xs).drop bs) =
                ((x :: xs).take bs) :: chunksGo bs f2' ((x :: xs).drop bs)
              congr 1
              apply ih
              · simp only [List.length_drop, List.length_cons]
                simp only [List.length_cons] at h1
                omega
              · simp only [List.length_drop, List.length_cons]
                simp only [List.length_cons] at h2
                omega

theorem chunks_nil (bs : Nat) : chunks bs ([] : List α) = [] := by
  unfold chunks
  split <;> rfl

theorem chunks_cons (bs : Nat) (hbs : ¬ bs = 0) (x : α) (xs : List α) :
    chunks bs (x :: xs) =
      ((x :: xs).take bs) :: chunks bs ((x :: xs).drop bs) := by
  unfold chunks
  rw [if_neg hbs, if_neg hbs]
  show ((x :: xs).take bs) :: chunksGo bs xs.length ((x :: xs).drop bs) = _
  congr 1
  apply chunksGo_fuel bs hbs
  · simp only [List.length_drop, List.length_cons]
    omega
  · exact le_rfl

theorem foldl_chunks {α β : Type} (f : β → α → β) (bs : Nat)
    (hbs : ¬ bs = 0) :
    ∀ (n : Nat) (l : List α), l.length ≤ n → ∀ acc : β,
      (chunks bs l).foldl (fun a c => c.foldl f a) acc = l.foldl f acc := by
  intro n
  induction n with
  | zero =>
      intro l hl acc
      cases l with
      | nil => rw [chunks_nil]; rfl
      | cons x xs => simp at hl
  | succ m ih =>
      intro l hl acc
      cases l with
      | nil => rw [chunks_nil]; rfl
      | cons x xs =>
          rw [chunks_cons bs hbs x xs, List.foldl_cons,
            ih ((x :: xs).drop bs)
              (by simp only [List.length_drop, List.length_cons]
                  simp only [List.length_cons] at hl
                  omega),
            ← List.foldl_append, List.take_append_drop]

theorem processFileStep_snd (work : String → Except String String)
    (total : Nat) (acc : BatchJob × Nat) (f : String) :
    (processFileStep work total acc f).2 = acc.2 + 1 := by
  unfold processFileStep
  cases work f <;> rfl

theorem processFileStep_results_length (work : String → Except String String)
    (total : Nat) (acc : BatchJob × Nat) (f : String) :
    (processFileStep work total acc f).1.results.length =
      acc.1.results.length + 1 := by
  unfold processFileStep
  cases work f <;> simp

theorem processFileStep_errors_length (work : String → Except String String)
    (total : Nat) (acc : BatchJob × Nat) (f : String) :
    (processFileStep work total acc f).1.errors.length =
      acc.1.errors.length + (if isErr (work f) then 1 else 0) := by
  unfold processFileStep
  cases hw : work f <;> simp [isErr, hw]

theorem processFileStep_fixed (work : String → Except String String)
    (total : Nat) (acc : BatchJob × Nat) (f : String) :
    (processFileStep work total acc f).1.status = acc.1.status ∧
    (processFileStep work total acc f).1.file_paths = acc.1.file_paths ∧
    (processFileStep work total acc f).1.job_id = acc.1.job_id ∧
    (processFileStep work total acc f).1.start_time = acc.1.start_time ∧
    (processFileStep work total acc f).1.end_time = acc.1.end_time := by
  unfold processFileStep
  cases work f <;> exact ⟨rfl, rfl, rfl, rfl, rfl⟩

theorem processFileStep_progress (work : String → Except String String)
    (total : Nat) (acc : BatchJob × Nat) (f : String) :
    (processFileStep work total acc f).1.progress =
      (((acc.2 + 1 : Nat) : ℚ) / (total : ℚ)) * 100 := by
  unfold processFileStep
  cases work f <;> simp

theorem processFileStep_results_mem (work : String → Except String String)
    (total : Nat) (acc : BatchJob × Nat) (f : String) (fr : FileResult)
    (h : fr ∈ (processFileStep work total acc f).1.results) :
    fr ∈ acc.1.results ∨ fr.tag = "success" ∨ fr.tag = "error" := by
  unfold processFileStep at h
  cases hw : work f <;> rw [hw] at h <;> simp at h <;>
    rcases h with h | h
  · exact Or.inl h
  · right; right; rw [h]
  · exact Or.inl h
  · right; left; rw [h]

theorem foldl_processFileStep_spec (work : String → Except String String)
    (total : Nat) :
    ∀ (files : List String) (acc : BatchJob × Nat),
      (files.foldl (processFileStep work total) acc).2 =
        acc.2 + files.length ∧
      (files.foldl (processFileStep work total) acc).1.results.length =
        acc.1.results.length + files.length ∧
      (files.foldl (processFileStep work total) acc).1.errors.length =
        acc.1.errors.length + files.countP (fun f => isErr (work f)) ∧
      (files.foldl (processFileStep work total) acc).1.status =
        acc.1.status ∧
      (files.foldl (processFileStep work total) acc).1.file_paths =
        acc.1.file_paths ∧
      (files.foldl (processFileStep work total) acc).1.job_id =
        acc.1.job_id ∧
      (files.foldl (processFileStep work total) acc).1.start_time =
        acc.1.start_time ∧
      (files.foldl (processFileStep work total) acc).1.end_time =
        acc.1.end_time ∧
      (∀ fr ∈ (files.foldl (processFileStep work total) acc).1.results,
        fr ∈ acc.1.results ∨ fr.tag = "success" ∨ fr.tag = "error") := by
  intro files
  induction files with
  | nil =>
      intro acc
      simp
      intro fr hfr
      exact Or.inl hfr
  | cons f fs ih =>
      intro acc
      rw [List.foldl_cons]
      obtain ⟨i1, i2, i3, i4, i5, i6, i7, i8, i9⟩ :=
        ih (processFileStep work total acc f)
      obtain ⟨s4, s5, s6, s7, s8⟩ := processFileStep_fixed work total acc f
      refine ⟨?_, ?_, ?_, ?_, ?_, ?_, ?_, ?_, ?_⟩
      · rw [i1, processFileStep_snd]; simp; omega
      · rw [i2, processFileStep_results_length]; simp; omega
      · rw [i3, processFileStep_errors_length, List.countP_cons]; omega
      · rw [i4, s4]
      · rw [i5, s5]
      · rw [i6, s6]
      · rw [i7, s7]
      · rw [i8, s8]
      · intro fr hfr
        rcases i9 fr hfr with h | h
        · exact processFileStep_results_mem work total acc f fr h
        · exact Or.inr h

/-! ## C1 -/

/-- C1 (counterexample).  The claim says a submission with an empty file
list fails synchronously, creates no job and returns no id.  In the code,
`submit_batch_job` with `file_paths = []` performs no validation: on a
fresh processor it returns the id `"batch_1000"`, and afterwards the
active set — empty beforehand — contains the freshly allocated Pending
record under that id. -/
theorem C1_counterexample :
    (submit_batch_job 1000 [] ["document"] none (initState 1)).2 =
      "batch_1000" ∧
    (initState 1).active_jobs = [] ∧
    dictLookup "batch_1000"
      (submit_batch_job 1000 [] ["document"] none (initState 1)).1.active_jobs
      = some 0 ∧
    jobAt (submit_batch_job 1000 [] ["document"] none (initState 1)).1 0 =
      some (mkBatchJob "batch_1000" [] ["document"] none) :=
  ⟨rfl, rfl, rfl, rfl⟩

/-- C1 (amended).  `submit_batch_job` never rejects its inputs: for every
submission — the empty file list included — it returns the id
`"batch_" + str(tms)`, registers a freshly allocated record in the active
set under that id, the record is in status Pending, and the driver task for
it is created. -/
theorem C1_submit_accepts_empty_inputs (tms : Nat)
    (paths analyses : List String) (prompt : Option String) (s : PState) :
    (submit_batch_job tms paths analyses prompt s).2 =
      "batch_" ++ Nat.repr tms ∧
    dictLookup ("batch_" ++ Nat.repr tms)
      (submit_batch_job tms paths analyses prompt s).1.active_jobs =
      some s.jobs.length ∧
    jobAt (submit_batch_job tms paths analyses prompt s).1 s.jobs.length =
      some (mkBatchJob ("batch_" ++ Nat.repr tms) paths analyses prompt) ∧
    (mkBatchJob ("batch_" ++ Nat.repr tms) paths analyses prompt).status =
      ProcessingStatus.pending ∧
    (submit_batch_job tms paths analyses prompt s).1.driver =
      s.driver ++ [(s.jobs.length, DriverPhase.ready)] := by
  refine ⟨rfl, ?_, ?_, rfl, rfl⟩
  · exact dictLookup_insert_self _ _ _
  · simp only [submit_batch_job, jobAt, List.get?_eq_getElem?]
    exact List.getElem?_concat_length _ _

/-! ## C4 -/

/-- C4 (counterexample).  The claim says two submissions within the same
millisecond receive distinct job ids thanks to a monotonic counter.  The
code builds the id from the timestamp alone (`f"batch_{int(time.time() *
1000)}"`): two submissions at millisecond 1000 both get `"batch_1000"`,
and the second overwrites the first in the active set, which afterwards
holds the single entry `("batch_1000", 1)`. -/
theorem C4_counterexample :
    (submit_batch_job 1000 ["a"] [] none (initState 1)).2 =
      (submit_batch_job 1000 ["b"] [] none
        (submit_batch_job 1000 ["a"] [] none (initState 1)).1).2 ∧
    (submit_batch_job 1000 ["b"] [] none
        (submit_batch_job 1000 ["a"] [] none (initState 1)).1).1.active_jobs
      = [("batch_1000", 1)] :=
  ⟨rfl, rfl⟩

/-- C4 (amended).  The job id is derived from the millisecond timestamp
alone — there is no monotonic counter.  Two submissions with distinct
timestamps receive distinct ids, but two submissions within the same
millisecond receive the same id (and the second overwrites the first in
the active set, as the counterexample shows). -/
theorem C4_ids_distinct_iff_distinct_timestamps (t1 t2 : Nat)
    (p1 a1 p2 a2 : List String) (c1 c2 : Option String) (s1 s2 : PState)
    (h : t1 ≠ t2) :
    (submit_batch_job t1 p1 a1 c1 s1).2 ≠ (submit_batch_job t2 p2 a2 c2 s2).2
    := by
  intro heq
  apply h
  apply Nat_repr_injective
  have h2 := congrArg String.data heq
  simp only [submit_batch_job, String.data_append] at h2
  have h3 := List.append_cancel_left h2
  exact String.ext h3

/-- Witness for `C4_ids_distinct_iff_distinct_timestamps` at timestamps
1000 and 1001. -/
theorem C4_witness :
    (1000 : Nat) ≠ 1001 ∧
    (submit_batch_job 1000 [] [] none (initState 1)).2 ≠
      (submit_batch_job 1001 [] [] none (initState 1)).2 :=
  ⟨by decide,
    C4_ids_distinct_iff_distinct_timestamps 1000 1001 [] [] [] [] none none
      (initState 1) (initState 1) (by decide)⟩

/-! ## C5 -/

/-- C5 (confirmed).  Per-file failures do not fail the job: if the work
function raises for exactly `k` of the `N` files of a job (and the driver
itself raises nothing, i.e. the completion block of `_process_batch_job`
runs), the job reaches status Completed with exactly `k` entries in
`errors` and exactly `N` entries in `results`, each tagged `"success"` or
`"error"`. -/
theorem C5_per_file_failures_do_not_fail_job
    (work : String → Except String String) (mw : Nat) (job : BatchJob)
    (t : ℚ) (hmw : 0 < mw) (hres : job.results = [])
    (herr : job.errors = []) :
    (completeJob t (process_files_with_progress work mw job)).status =
      ProcessingStatus.completed ∧
    (completeJob t (process_files_with_progress work mw job)).errors.length =
      job.file_paths.countP (fun f => isErr (work f)) ∧
    (completeJob t (process_files_with_progress work mw job)).results.length =
      job.file_paths.length ∧
    (∀ fr ∈ (completeJob t (process_files_with_progress work mw job)).results,
      fr.tag = "success" ∨ fr.tag = "error") := by
  have hbs : ¬ min mw 4 = 0 := by omega
  have hpipe : process_files_with_progress work mw job =
      (job.file_paths.foldl
        (processFileStep work job.file_paths.length) (job, 0)).1 := by
    show ((chunks (min mw 4) job.file_paths).foldl
        (processChunk work job.file_paths.length) (job, 0)).1 = _
    rw [show processChunk work job.file_paths.length =
        fun a c => List.foldl (processFileStep work job.file_paths.length) a c
        from rfl,
      foldl_chunks (processFileStep work job.file_paths.length) (min mw 4)
        hbs job.file_paths.length job.file_paths le_rfl]
  obtain ⟨_, h2, h3, _, _, _, _, _, h9⟩ :=
    foldl_processFileStep_spec work job.file_paths.length job.file_paths
      (job, 0)
  refine ⟨rfl, ?_, ?_, ?_⟩
  · show (process_files_with_progress work mw job).errors.length = _
    rw [hpipe, h3, herr]
    simp
  · show (process_files_with_progress work mw job).results.length = _
    rw [hpipe, h2, hres]
    simp
  · intro fr hfr
    have hfr2 : fr ∈ (process_files_with_progress work mw job).results := hfr
    rw [hpipe] at hfr2
    rcases h9 fr hfr2 with h | h
    · rw [hres] at h
      exact absurd h (List.not_mem_nil fr)
    · exact h

/-- Witness for `C5_per_file_failures_do_not_fail_job`: three files of
which exactly the second fails. -/
theorem C5_witness :
    (0 : Nat) < 4 ∧
    (mkBatchJob "j" ["a", "b", "c"] [] none).results = [] ∧
    (mkBatchJob "j" ["a", "b", "c"] [] none).errors = [] ∧
    ((completeJob 9 (process_files_with_progress
        (fun f => if f = "b" then Except.error "boom" else Except.ok "ok") 4
        (mkBatchJob "j" ["a", "b", "c"] [] none))).status =
      ProcessingStatus.completed ∧
    (completeJob 9 (process_files_with_progress
        (fun f => if f = "b" then Except.error "boom" else Except.ok "ok") 4
        (mkBatchJob "j" ["a", "b", "c"] [] none))).errors.length =
      (mkBatchJob "j" ["a", "b", "c"] [] none).file_paths.countP
        (fun f => isErr (if f = "b" then Except.error "boom"
          else Except.ok "ok")) ∧
    (completeJob 9 (process_files_with_progress
        (fun f => if f = "b" then Except.error "boom" else Except.ok "ok") 4
        (mkBatchJob "j" ["a", "b", "c"] [] none))).results.length =
      (mkBatchJob "j" ["a", "b", "c"] [] none).file_paths.length ∧
    (∀ fr ∈ (completeJob 9 (process_files_with_progress
        (fun f => if f = "b" then Except.error "boom" else Except.ok "ok") 4
        (mkBatchJob "j" ["a", "b", "c"] [] none))).results,
      fr.tag = "success" ∨ fr.tag = "error")) :=
  ⟨by decide, rfl, rfl,
    C5_per_file_failures_do_not_fail_job
      (fun f => if f = "b" then Except.error "boom" else Except.ok "ok") 4
      (mkBatchJob "j" ["a", "b", "c"] [] none) 9 (by decide) rfl rfl⟩

/-! ## C10 -/

/-- C10 (confirmed).  For a job with an empty file list the sub-batch loop
of `_process_files_with_progress` never runs (there is no slice, so the
per-file progress division is never evaluated and the record is returned
untouched), and the driver's completion block then leaves the job
Completed with `progress = 100.0` and empty `results` and `errors`. -/
theorem C10_empty_file_list_completes
    (work : String → Except String String) (mw : Nat) (id : String)
    (analyses : List String) (prompt : Option String) (t : ℚ)
    (hmw : 0 < mw) :
    process_files_with_progress work mw (mkBatchJob id [] analyses prompt) =
      mkBatchJob id [] analyses prompt ∧
    progressTrace work 0 (mkBatchJob id [] analyses prompt) 0 [] =
      [(mkBatchJob id [] analyses prompt).progress] ∧
    (completeJob t (process_files_with_progress work mw
        (mkBatchJob id [] analyses prompt))).status =
      ProcessingStatus.completed ∧
    (completeJob t (process_files_with_progress work mw
        (mkBatchJob id [] analyses prompt))).progress = 100 ∧
    (completeJob t (process_files_with_progress work mw
        (mkBatchJob id [] analyses prompt))).results = [] ∧
    (completeJob t (process_files_with_progress work mw
        (mkBatchJob id [] analyses prompt))).errors = [] := by
  have h1 : process_files_with_progress work mw
      (mkBatchJob id [] analyses prompt) =
      mkBatchJob id [] analyses prompt := by
    show ((chunks (min mw 4) ([] : List String)).foldl
        (processChunk work 0) (mkBatchJob id [] analyses prompt, 0)).1 = _
    rw [chunks_nil]
    rfl
  refine ⟨h1, rfl, ?_, ?_, ?_, ?_⟩ <;> rw [h1] <;> rfl

/-- Witness for `C10_empty_file_list_completes` at `max_workers = 4`. -/
theorem C10_witness :
    (0 : Nat) < 4 ∧
    (process_files_with_progress workOk 4 (mkBatchJob "j" [] [] none) =
      mkBatchJob "j" [] [] none ∧
    progressTrace workOk 0 (mkBatchJob "j" [] [] none) 0 [] =
      [(mkBatchJob "j" [] [] none).progress] ∧
    (completeJob 7 (process_files_with_progress workOk 4
        (mkBatchJob "j" [] [] none))).status =
      ProcessingStatus.completed ∧
    (completeJob 7 (process_files_with_progress workOk 4
        (mkBatchJob "j" [] [] none))).progress = 100 ∧
    (completeJob 7 (process_files_with_progress workOk 4
        (mkBatchJob "j" [] [] none))).results = [] ∧
    (completeJob 7 (process_files_with_progress workOk 4
        (mkBatchJob "j" [] [] none))).errors = []) :=
  ⟨by decide,
    C10_empty_file_list_completes workOk 4 "j" [] none 7 (by decide)⟩

/-! ## C2 -/

theorem progress_mono (total m : Nat) :
    ((m : ℚ) / (total : ℚ)) * 100 ≤ (((m : ℚ) + 1) / (total : ℚ)) * 100 := by
  rcases Nat.eq_zero_or_pos total with h0 | h0
  · simp [h0]
  · have ht : (0 : ℚ) < total := by exact_mod_cast h0
    have h1 : (m : ℚ) / total ≤ ((m : ℚ) + 1) / total := by
      rw [div_le_div_iff ht ht]
      nlinarith
    linarith

theorem progress_le_100 (total m : Nat) (h : m ≤ total) :
    ((m : ℚ) / (total : ℚ)) * 100 ≤ 100 := by
  rcases Nat.eq_zero_or_pos total with h0 | h0
  · simp [h0]
  · have ht : (0 : ℚ) < total := by exact_mod_cast h0
    have h1 : (m : ℚ) / total ≤ 1 := by
      rw [div_le_one ht]
      exact_mod_cast h
    linarith

theorem progressTrace_head (work : String → Except String String)
    (total : Nat) (job : BatchJob) (n : Nat) (files : List String) :
    (progressTrace work total job n files).head? = some job.progress := by
  cases files <;> simp [progressTrace, List.scanl_cons, List.scanl_nil]

theorem progressTrace_spec (work : String → Except String String)
    (total : Nat) :
    ∀ (files : List String) (job : BatchJob) (n : Nat),
      job.progress = ((n : ℚ) / (total : ℚ)) * 100 →
      (∀ p ∈ progressTrace work total job n files,
        ∃ m : Nat, n ≤ m ∧ m ≤ n + files.length ∧
          p = ((m : ℚ) / (total : ℚ)) * 100) ∧
      List.Chain' (fun a b : ℚ => a ≤ b)
        (progressTrace work total job n files) := by
  intro files
  induction files with
  | nil =>
      intro job n hp
      constructor
      · intro p hp2
        simp [progressTrace, List.scanl_nil] at hp2
        exact ⟨n, le_rfl, by omega, by rw [hp2, hp]⟩
      · simp [progressTrace, List.scanl_nil]
  | cons f fs ih =>
      intro job n hp
      have hstep : progressTrace work total job n (f :: fs) =
          job.progress :: progressTrace work total
            (processFileStep work total (job, n) f).1
            (processFileStep work total (job, n) f).2 fs := by
        simp [progressTrace, List.scanl_cons]
      have hsnd : (processFileStep work total (job, n) f).2 = n + 1 :=
        processFileStep_snd work total (job, n) f
      have hpr : (processFileStep work total (job, n) f).1.progress =
          (((n + 1 : Nat) : ℚ) / (total : ℚ)) * 100 :=
        processFileStep_progress work total (job, n) f
      rw [hsnd] at hstep
      obtain ⟨ihm, ihc⟩ := ih (processFileStep work total (job, n) f).1
        (n + 1) hpr
      constructor
      · intro p hp2
        rw [hstep] at hp2
        rcases List.mem_cons.mp hp2 with h | h
        · exact ⟨n, le_rfl, by simp, by rw [h, hp]⟩
        · obtain ⟨m, hm1, hm2, hm3⟩ := ihm p h
          exact ⟨m, by omega, by simp only [List.length_cons]; omega, hm3⟩
      · rw [hstep]
        apply List.chain'_cons'.mpr
        refine ⟨?_, ihc⟩
        intro q hq
        rw [progressTrace_head] at hq
        have hq2 : q = (processFileStep work total (job, n) f).1.progress :=
          (Option.mem_some_iff.mp hq).symm
        rw [hq2, hp, hpr]
        push_cast
        exact progress_mono total n

/-- C2 (counterexample).  The claim says progress is a fraction in
[0.0, 1.0] that equals 1.0 once the job is Completed.  The code keeps a
percentage: running the driver pipeline on a one-file job that succeeds
leaves the job Completed with `progress = 100.0`, which is neither `1.0`
nor within `[0, 1]`. -/
theorem C2_counterexample :
    (completeJob 5 (process_files_with_progress workOk 4
        (mkBatchJob "batch_1" ["a"] [] none))).status =
      ProcessingStatus.completed ∧
    (completeJob 5 (process_files_with_progress workOk 4
        (mkBatchJob "batch_1" ["a"] [] none))).progress = 100 ∧
    ¬ (completeJob 5 (process_files_with_progress workOk 4
        (mkBatchJob "batch_1" ["a"] [] none))).progress ≤ 1 ∧
    ¬ (completeJob 5 (process_files_with_progress workOk 4
        (mkBatchJob "batch_1" ["a"] [] none))).progress = 1 :=
  ⟨rfl, rfl, by decide, by decide⟩

/-- C2 (amended).  A job's progress is a *percentage* in [0.0, 100.0]: it
is 0 while the job is Pending (a freshly submitted record), exactly 100.0
once the job is Completed, and monotonically non-decreasing across every
per-file update performed while the job is Running (the value sequence of
`job.progress` along any run of the update loop, starting from a value
consistent with the completed-count, is a non-decreasing chain within
[0, 100]). -/
theorem C2_progress_percentage_monotone
    (work : String → Except String String) (total n : Nat) (job : BatchJob)
    (files : List String) (t : ℚ) (id : String)
    (paths analyses : List String) (prompt : Option String)
    (hp : job.progress = ((n : ℚ) / (total : ℚ)) * 100)
    (hn : n + files.length ≤ total) :
    List.Chain' (fun a b : ℚ => a ≤ b)
      (progressTrace work total job n files) ∧
    (∀ p ∈ progressTrace work total job n files, 0 ≤ p ∧ p ≤ 100) ∧
    (mkBatchJob id paths analyses prompt).status =
      ProcessingStatus.pending ∧
    (mkBatchJob id paths analyses prompt).progress = 0 ∧
    (completeJob t job).status = ProcessingStatus.completed ∧
    (completeJob t job).progress = 100 := by
  obtain ⟨hm, hc⟩ := progressTrace_spec work total files job n hp
  refine ⟨hc, ?_, rfl, rfl, rfl, rfl⟩
  intro p hp2
  obtain ⟨m, _, hm2, hm3⟩ := hm p hp2
  constructor
  · rw [hm3]
    positivity
  · rw [hm3]
    exact progress_le_100 total m (by omega)

/-- Witness for `C2_progress_percentage_monotone`: a two-file job processed
from scratch. -/
theorem C2_witness :
    ((mkBatchJob "j" ["a", "b"] [] none).progress =
        (((0 : Nat) : ℚ) / ((2 : Nat) : ℚ)) * 100 ∧
      (0 : Nat) + (["a", "b"] : List String).length ≤ 2) ∧
    (List.Chain' (fun a b : ℚ => a ≤ b)
      (progressTrace workOk 2 (mkBatchJob "j" ["a", "b"] [] none) 0
        ["a", "b"]) ∧
    (∀ p ∈ progressTrace workOk 2 (mkBatchJob "j" ["a", "b"] [] none) 0
        ["a", "b"], 0 ≤ p ∧ p ≤ 100) ∧
    (mkBatchJob "x" [] [] none).status = ProcessingStatus.pending ∧
    (mkBatchJob "x" [] [] none).progress = 0 ∧
    (completeJob 3 (mkBatchJob "j" ["a", "b"] [] none)).status =
      ProcessingStatus.completed ∧
    (completeJob 3 (mkBatchJob "j" ["a", "b"] [] none)).progress = 100) :=
  ⟨⟨by norm_num [mkBatchJob], by decide⟩,
    C2_progress_percentage_monotone workOk 2 0
      (mkBatchJob "j" ["a", "b"] [] none) ["a", "b"] 3 "x" [] [] none
      (by norm_num [mkBatchJob]) (by decide)⟩

/-! ## C7 -/

/-- C7 (confirmed).  For a Running job whose progress reflects
`completed / total` with `completed_count > 0`, `_estimate_completion_time`
returns exactly `elapsed * (total / completed) - elapsed` (the `max(0, ·)`
clamp never bites because the estimate is non-negative); when
`completed_count == 0` the progress is 0 and the function returns `None`
(unknown). -/
theorem C7_estimate_linear_extrapolation (completed total : Nat)
    (st now : ℚ) (job : BatchJob)
    (hprog : job.progress = ((completed : ℚ) / (total : ℚ)) * 100)
    (hst : job.start_time = some st) (hst0 : ¬ st = 0) (hnow : st ≤ now)
    (hct : completed ≤ total) :
    (0 < completed →
      estimate_completion_time now job =
        some ((now - st) * ((total : ℚ) / (completed : ℚ)) - (now - st))) ∧
    (completed = 0 → estimate_completion_time now job = none) := by
  constructor
  · intro hc
    have htpos : 0 < total := lt_of_lt_of_le hc hct
    have hcq : (0 : ℚ) < completed := by exact_mod_cast hc
    have htq : (0 : ℚ) < total := by exact_mod_cast htpos
    have hppos : 0 < job.progress := by
      rw [hprog]
      positivity
    simp only [estimate_completion_time, hst]
    rw [if_neg (by push_neg; exact ⟨hppos.ne', hst0⟩)]
    have hp100 : job.progress / 100 = (completed : ℚ) / total := by
      rw [hprog]
      field_simp
      ring
    rw [hp100]
    have hdiv : (now - st) / ((completed : ℚ) / total) =
        (now - st) * ((total : ℚ) / completed) := by
      field_simp
    rw [hdiv]
    congr 1
    apply max_eq_right
    have he : (0 : ℚ) ≤ now - st := by linarith
    have h1 : (1 : ℚ) ≤ (total : ℚ) / completed := by
      rw [le_div_iff hcq, one_mul]
      exact_mod_cast hct
    nlinarith
  · intro hc
    simp only [estimate_completion_time, hst]
    rw [if_pos (Or.inl (by rw [hprog, hc]; simp))]

/-- Witness for `C7_estimate_linear_extrapolation`: one of two files done,
started at time 4default, queried at time 10 — estimate 6. -/
theorem C7_witness :
    (({ mkBatchJob "x" ["a", "b"] [] none with
        progress := 50, start_time := some 4 } : BatchJob).progress =
      (((1 : Nat) : ℚ) / ((2 : Nat) : ℚ)) * 100 ∧
      ({ mkBatchJob "x" ["a", "b"] [] none with
        progress := 50, start_time := some 4 } : BatchJob).start_time =
        some 4 ∧
      ¬ (4 : ℚ) = 0 ∧ (4 : ℚ) ≤ 10 ∧ (1 : Nat) ≤ 2) ∧
    ((0 < 1 →
      estimate_completion_time 10
        ({ mkBatchJob "x" ["a", "b"] [] none with
          progress := 50, start_time := some 4 } : BatchJob) =
        some ((10 - 4) * (((2 : Nat) : ℚ) / ((1 : Nat) : ℚ)) - (10 - 4))) ∧
    ((1 : Nat) = 0 →
      estimate_completion_time 10
        ({ mkBatchJob "x" ["a", "b"] [] none with
          progress := 50, start_time := some 4 } : BatchJob) = none)) :=
  ⟨⟨by norm_num, rfl, by norm_num, by norm_num, by norm_num⟩,
    C7_estimate_linear_extrapolation 1 2 4 10
      ({ mkBatchJob "x" ["a", "b"] [] none with
        progress := 50, start_time := some 4 })
      (by norm_num) rfl (by norm_num) (by norm_num) (by norm_num)⟩

/-! ## C3 -/

theorem jobAt_setJob_self (s : PState) (tok : Nat) (j : BatchJob)
    (h : tok < s.jobs.length) : jobAt (setJob s tok j) tok = some j := by
  unfold jobAt setJob
  simp only [List.get?_eq_getElem?]
  exact List.getElem?_set_self h

theorem jobAt_setPhase (s : PState) (tok tok2 : Nat) (ph : DriverPhase) :
    jobAt (setPhase s tok2 ph) tok = jobAt s tok := rfl

theorem driverPhase_setJob (s : PState) (tok tok2 : Nat) (j : BatchJob) :
    driverPhase (setJob s tok2 j) tok = driverPhase s tok := rfl

theorem find?_map_update (tok : Nat) (ph : DriverPhase) :
    ∀ (d : List (Nat × DriverPhase)),
      ((d.find? (fun p => p.1 = tok)).isSome) →
      ((d.map (fun p => if p.1 = tok then (tok, ph) else p)).find?
        (fun p => p.1 = tok)).map (fun p => p.2) = some ph := by
  intro d
  induction d with
  | nil => simp [List.find?]
  | cons a l ih =>
      intro h
      by_cases ha : a.1 = tok
      · simp [List.find?, ha]
      · rw [List.map_cons, if_neg ha,
          List.find?_cons_of_neg _ (by simpa using ha)]
        rw [List.find?_cons_of_neg _ (by simpa using ha)] at h
        exact ih h

theorem driverPhase_setPhase (s : PState) (tok : Nat) (ph ph0 : DriverPhase)
    (h : driverPhase s tok = some ph0) :
    driverPhase (setPhase s tok ph) tok = some ph := by
  unfold driverPhase setPhase at *
  apply find?_map_update
  cases hf : s.driver.find? (fun p => p.1 = tok) with
  | none => rw [hf] at h; simp at h
  | some p => simp [hf]

theorem jobAt_lt_length (s : PState) (tok : Nat) (j : BatchJob)
    (h : jobAt s tok = some j) : tok < s.jobs.length := by
  by_contra hlt
  push_neg at hlt
  unfold jobAt at h
  simp only [List.get?_eq_getElem?] at h
  rw [List.getElem?_eq_none hlt] at h
  simp at h

/-- After one `driver_chunk` step on a state whose driver is inside the
sub-batch loop, the shared record has gained exactly the sub-batch's
results, its status is untouched, and the driver has advanced to the
remaining sub-batches. -/
theorem driver_chunk_step (work : String → Except String String)
    (tok : Nat) (s : PState) (job : BatchJob) (c : List String)
    (rest : List (List String)) (n : Nat)
    (hjob : jobAt s tok = some job)
    (hphase : driverPhase s tok = some (DriverPhase.running (c :: rest) n)) :
    (∃ job2, jobAt (driver_chunk work tok s) tok = some job2 ∧
      job2.results.length = job.results.length + c.length ∧
      job2.errors.length = job.errors.length +
        c.countP (fun f => isErr (work f)) ∧
      job2.status = job.status ∧
      job2.file_paths = job.file_paths) ∧
    driverPhase (driver_chunk work tok s) tok =
      some (DriverPhase.running rest (n + c.length)) := by
  have hstep : driver_chunk work tok s =
      setPhase
        (setJob s tok (processChunk work job.file_paths.length (job, n) c).1)
        tok (DriverPhase.running rest
          (processChunk work job.file_paths.length (job, n) c).2) := by
    unfold driver_chunk
    rw [hphase, hjob]
  obtain ⟨f1, f2, f3, f4, f5, _, _, _, _⟩ :=
    foldl_processFileStep_spec work job.file_paths.length c (job, n)
  rw [hstep]
  constructor
  · refine ⟨(processChunk work job.file_paths.length (job, n) c).1,
      ?_, ?_, ?_, ?_, ?_⟩
    · rw [jobAt_setPhase]
      exact jobAt_setJob_self s tok _ (jobAt_lt_length s tok job hjob)
    · exact f2
    · exact f3
    · exact f4
    · exact f5
  · rw [show (processChunk work job.file_paths.length (job, n) c).2 =
        n + c.length from f1]
    exact driverPhase_setPhase _ tok _ _
      (by rw [driverPhase_setJob]; exact hphase)

/-- C3 (counterexample).  The claim says that after an accepted
cancellation of a Running job no further sub-batch is ever dispatched.
Concretely (`c3AfterSubmit` … `c3AfterChunk2`): a two-file job with
`batch_size = 1` is cancelled after its first sub-batch — the cancel is
accepted (returns `True`) while sub-batch `["b"]` is still pending — yet
the driver's next loop iteration still dispatches it, growing
`per_file_results` from 1 to 2 entries. -/
theorem C3_counterexample :
    (jobAt c3AfterChunk1 0).map (fun j => j.status) =
      some ProcessingStatus.processing ∧
    c3Cancel.2 = true ∧
    (jobAt c3Cancel.1 0).map (fun j => j.status) =
      some ProcessingStatus.cancelled ∧
    driverPhase c3Cancel.1 0 = some (DriverPhase.running [["b"]] 1) ∧
    (jobAt c3Cancel.1 0).map (fun j => j.results.length) = some 1 ∧
    (jobAt c3AfterChunk2 0).map (fun j => j.results.length) = some 2 :=
  ⟨rfl, rfl, rfl, rfl, rfl, rfl⟩

/-- C3 (amended).  An accepted cancellation of a Running job marks the
record Cancelled, sets its end time and moves it from the active set to
history immediately — but the driver observes no cancellation flag: its
next sub-batch iteration remains enabled and dispatches the next sub-batch
exactly as before (appending that sub-batch's results to the record, whose
status stays Cancelled), so processing continues to the end and
`per_file_results` ultimately holds one entry per input (which is ≤ N only
because it is exactly N). -/
theorem C3_cancel_does_not_stop_driver
    (work : String → Except String String) (s : PState) (id : String)
    (t : ℚ) (tok : Nat) (job : BatchJob) (c : List String)
    (rest : List (List String)) (n : Nat)
    (hlook : dictLookup id s.active_jobs = some tok)
    (hjob : jobAt s tok = some job)
    (hphase : driverPhase s tok = some (DriverPhase.running (c :: rest) n)) :
    (cancel_job id t s).2 = true ∧
    jobAt (cancel_job id t s).1 tok =
      some ({ job with
              status := ProcessingStatus.cancelled
              end_time := some t }) ∧
    driverPhase (cancel_job id t s).1 tok =
      some (DriverPhase.running (c :: rest) n) ∧
    (∃ job2, jobAt (driver_chunk work tok (cancel_job id t s).1) tok =
        some job2 ∧
      job2.results.length = job.results.length + c.length ∧
      job2.status = ProcessingStatus.cancelled) ∧
    driverPhase (driver_chunk work tok (cancel_job id t s).1) tok =
      some (DriverPhase.running rest (n + c.length)) := by
  have hlt := jobAt_lt_length s tok job hjob
  have hpair : cancel_job id t s =
      ({ setJob s tok ({ job with
          status := ProcessingStatus.cancelled
          end_time := some t }) with
        job_history := s.job_history ++ [tok]
        active_jobs := dictErase id s.active_jobs }, true) := by
    unfold cancel_job
    split
    · rename_i tok2 heq
      rw [hlook] at heq
      injection heq with heqt
      subst heqt
      split
      · rename_i job2 heq2
        rw [hjob] at heq2
        injection heq2 with heqj
        subst heqj
        rfl
      · rename_i heq2
        rw [hjob] at heq2
        exact absurd heq2 (by simp)
    · rename_i heq
      rw [hlook] at heq
      exact absurd heq (by simp)
  have hcancel : (cancel_job id t s).1 =
      { setJob s tok ({ job with
          status := ProcessingStatus.cancelled
          end_time := some t }) with
        job_history := s.job_history ++ [tok]
        active_jobs := dictErase id s.active_jobs } := by
    rw [hpair]
  have hjob2 : jobAt (cancel_job id t s).1 tok =
      some ({ job with
        status := ProcessingStatus.cancelled
        end_time := some t }) := by
    rw [hcancel]
    exact jobAt_setJob_self s tok _ hlt
  have hphase2 : driverPhase (cancel_job id t s).1 tok =
      some (DriverPhase.running (c :: rest) n) := by
    rw [hcancel]
    exact hphase
  obtain ⟨⟨job2, hj1, hj2, _, hj4, _⟩, hph3⟩ :=
    driver_chunk_step work tok (cancel_job id t s).1
      ({ job with
        status := ProcessingStatus.cancelled
        end_time := some t })
      c rest n hjob2 hphase2
  refine ⟨?_, hjob2, hphase2, ⟨job2, hj1, hj2, hj4⟩, hph3⟩
  rw [hpair]

/-- Witness for `C3_cancel_does_not_stop_driver` on the concrete
interleaving of the counterexample. -/
theorem C3_witness :
    (dictLookup "batch_1000" c3AfterChunk1.active_jobs = some 0 ∧
      (∃ job, jobAt c3AfterChunk1 0 = some job) ∧
      driverPhase c3AfterChunk1 0 =
        some (DriverPhase.running [["b"]] 1)) ∧
    (cancel_job "batch_1000" 11 c3AfterChunk1).2 = true ∧
    driverPhase (driver_chunk workOk 0
        (cancel_job "batch_1000" 11 c3AfterChunk1).1) 0 =
      some (DriverPhase.running [] (1 + (["b"] : List String).length)) := by
  obtain ⟨h1, h2, h3, h4, h5⟩ :=
    C3_cancel_does_not_stop_driver workOk c3AfterChunk1 "batch_1000" 11 0
      ((jobAt c3AfterChunk1 0).getD (mkBatchJob "" [] [] none))
      ["b"] [] 1 rfl rfl rfl
  exact ⟨⟨rfl, ⟨_, rfl⟩, rfl⟩, h1, h5⟩

/-! ## C6 -/

theorem mem_dictInsert (p : String × Nat) (k : String) (v : Nat)
    (d : List (String × Nat)) (h : p ∈ dictInsert k v d) :
    p ∈ d ∨ p = (k, v) := by
  unfold dictInsert at h
  by_cases ha : d.any (fun q => q.1 = k) = true
  · rw [if_pos ha] at h
    obtain ⟨q, hq, hq2⟩ := List.mem_map.mp h
    by_cases hqk : q.1 = k
    · rw [if_pos hqk] at hq2
      exact Or.inr hq2.symm
    · rw [if_neg hqk] at hq2
      exact Or.inl (hq2 ▸ hq)
  · rw [if_neg ha] at h
    rcases List.mem_append.mp h with h | h
    · exact Or.inl h
    · exact Or.inr (List.mem_singleton.mp h)

theorem mem_dictErase (p : String × Nat) (k : String)
    (d : List (String × Nat)) (h : p ∈ dictErase k d) :
    p ∈ d ∧ ¬ p.1 = k := by
  unfold dictErase at h
  have := List.mem_filter.mp h
  exact ⟨this.1, by simpa using this.2⟩

theorem dictLookup_none_no_key (k : String) (d : List (String × Nat))
    (h : dictLookup k d = none) : ∀ p ∈ d, ¬ p.1 = k := by
  unfold dictLookup at h
  cases hf : d.find? (fun p => p.1 = k) with
  | none =>
      intro p hp
      have := List.find?_eq_none.mp hf p hp
      simpa using this
  | some q => rw [hf] at h; simp at h

theorem save_job_results_ok (writeOk : Bool) :
    save_job_results writeOk = Except.ok () := by
  unfold save_job_results writeResultsFile
  cases writeOk <;> rfl

theorem dictLookup_isSome_key (k : String) (d : List (String × Nat))
    (h : (dictLookup k d).isSome = true) : ∃ p ∈ d, p.1 = k := by
  unfold dictLookup at h
  cases hf : d.find? (fun p => p.1 = k) with
  | none => rw [hf] at h; simp at h
  | some q =>
      exact ⟨q, List.mem_of_find?_eq_some hf,
        by simpa using List.find?_some hf⟩

theorem settled_driver_except (tok2 : Nat) (t : ℚ) (e : String)
    (s : PState) (tok : Nat) (hs : Settled s tok) :
    Settled (driver_except tok2 t e s) tok := by
  obtain ⟨h1, h2, h3⟩ := hs
  unfold driver_except
  split
  · rename_i job hj
    split
    · refine ⟨List.mem_append.mpr (Or.inl h1), ?_, by simpa [setPhase, setJob] using h3⟩
      intro p hp
      exact h2 p (mem_dictErase p _ _ hp).1
    · exact ⟨List.mem_append.mpr (Or.inl h1), h2, by simpa [setPhase, setJob] using h3⟩
  · exact ⟨h1, h2, h3⟩

/-- Every non-cleanup operation preserves the settled configuration of a
terminal record: once in history and out of the active set, it stays so. -/
theorem settled_preserved (work : String → Except String String) (op : Op)
    (s : PState) (tok : Nat) (hs : Settled s tok) (hnc : ¬ op.isCleanup) :
    Settled (applyOp work op s) tok := by
  obtain ⟨h1, h2, h3⟩ := hs
  cases op with
  | submit tms paths analyses prompt =>
      show Settled (submit_batch_job tms paths analyses prompt s).1 tok
      refine ⟨h1, ?_, ?_⟩
      · intro p hp
        have hp2 : p ∈ dictInsert ("batch_" ++ Nat.repr tms) s.jobs.length
            s.active_jobs := hp
        rcases mem_dictInsert p _ _ _ hp2 with h | h
        · exact h2 p h
        · rw [h]
          intro hcon
          simp at hcon
          omega
      · show tok < (s.jobs ++ [_]).length
        simp
        omega
  | driverStart tok2 t =>
      show Settled (driver_start tok2 t s) tok
      unfold driver_start
      split
      · exact ⟨h1, h2, by simpa [setPhase, setJob] using h3⟩
      · exact ⟨h1, h2, h3⟩
  | driverChunk tok2 =>
      show Settled (driver_chunk work tok2 s) tok
      unfold driver_chunk
      split
      · exact ⟨h1, h2, by simpa [setPhase, setJob] using h3⟩
      · exact ⟨h1, h2, h3⟩
  | driverTerminal tok2 t wOk =>
      show Settled (driver_terminal tok2 t wOk s) tok
      unfold driver_terminal
      split
      · rename_i ph job hph hj
        split
        · exact settled_driver_except tok2 t _ _ tok
            ⟨h1, h2, by simpa [setPhase, setJob] using h3⟩
        · split
          · refine ⟨List.mem_append.mpr (Or.inl h1), ?_, by simpa [setPhase, setJob] using h3⟩
            intro p hp
            exact h2 p (mem_dictErase p _ _ hp).1
          · exact settled_driver_except tok2 t _ _ tok
              ⟨List.mem_append.mpr (Or.inl h1), h2, by simpa [setPhase, setJob] using h3⟩
      · exact ⟨h1, h2, h3⟩
  | cancel id t =>
      show Settled (cancel_job id t s).1 tok
      unfold cancel_job
      split
      · rename_i tok3 hl
        split
        · rename_i job hj
          refine ⟨List.mem_append.mpr (Or.inl h1), ?_, by simpa [setPhase, setJob] using h3⟩
          intro p hp
          exact h2 p (mem_dictErase p _ _ hp).1
        · exact ⟨h1, h2, h3⟩
      · exact ⟨h1, h2, h3⟩
  | cleanup cutoff => exact absurd trivial hnc

/-- An accepted `cancel_job` settles the record it cancels. -/
theorem cancel_establishes_settled (id : String) (t : ℚ) (s : PState)
    (tok : Nat) (hl : dictLookup id s.active_jobs = some tok)
    (hkey : ∀ p ∈ s.active_jobs, p.2 = tok → p.1 = id)
    (hlen : tok < s.jobs.length) :
    Settled (cancel_job id t s).1 tok := by
  unfold cancel_job
  split
  · rename_i tok2 heq
    rw [hl] at heq
    injection heq with heqt
    subst heqt
    split
    · rename_i job hj
      refine ⟨List.mem_append.mpr (Or.inr (by simp)), ?_, by simpa [setPhase, setJob] using hlen⟩
      intro p hp
      obtain ⟨hp1, hp2⟩ := mem_dictErase p _ _ hp
      intro hc
      exact hp2 (hkey p hp1 hc)
    · rename_i hj
      exfalso
      unfold jobAt at hj
      simp only [List.get?_eq_getElem?] at hj
      rw [List.getElem?_eq_getElem hlen] at hj
      simp at hj
  · rename_i heq
    rw [hl] at heq
    simp at heq

/-- The driver's own completion block settles its record, whether the
active entry is still present (normal completion) or already gone — the
`KeyError` path through the exception handler (e.g. after a cancel). -/
theorem driver_terminal_establishes_settled (tok : Nat) (t : ℚ)
    (wOk : Bool) (s : PState) (n : Nat) (job : BatchJob)
    (hph : driverPhase s tok = some (DriverPhase.running [] n))
    (hj : jobAt s tok = some job)
    (hkey : ∀ p ∈ s.active_jobs, p.2 = tok → p.1 = job.job_id) :
    Settled (driver_terminal tok t wOk s) tok := by
  have hlen := jobAt_lt_length s tok job hj
  unfold driver_terminal
  split
  · rename_i ph job2 hph2 hj2
    rw [hph] at hph2
    rw [hj] at hj2
    injection hj2 with hj2e
    subst hj2e
    split
    · rename_i e hsave
      rw [save_job_results_ok] at hsave
      exact absurd hsave (by simp)
    · split
      · rename_i hsome
        refine ⟨List.mem_append.mpr (Or.inr (by simp)), ?_,
          by simpa [setPhase, setJob] using hlen⟩
        intro p hp
        obtain ⟨hp1, hp2⟩ := mem_dictErase p _ _ hp
        intro hc
        exact hp2 (hkey p hp1 hc)
      · rename_i hnone
        have hn2 : ∀ p ∈ s.active_jobs,
            ¬ p.1 = (completeJob t job).job_id :=
          dictLookup_none_no_key _ _
            (Option.not_isSome_iff_eq_none.mp (by simpa using hnone))
        have hj2' : jobAt ({ setJob s tok (completeJob t job) with
            job_history := s.job_history ++ [tok] }) tok =
            some (completeJob t job) :=
          jobAt_setJob_self s tok _ hlen
        unfold driver_except
        split
        · rename_i job3 hj3
          rw [hj2'] at hj3
          injection hj3 with hj3e
          subst hj3e
          split
          · rename_i hsome3
            obtain ⟨p, hp, hp1⟩ := dictLookup_isSome_key _ _ hsome3
            exact absurd hp1 (hn2 p hp)
          · refine ⟨?_, ?_, ?_⟩
            · exact List.mem_append.mpr (Or.inr (by simp))
            · intro p hp hc
              exact hn2 p hp (hkey p hp hc)
            · simpa [setPhase, setJob] using hlen
        · rename_i hj3
          exact absurd hj2' (by rw [hj3]; simp)
  · rename_i hcon
    exact absurd (hcon _ _ hph hj) (by simp)

/-- C6 (counterexample).  The claim says that from the moment of the
terminal transition the record is in exactly one of active/history after
*every* subsequent operation.  `cleanup_old_jobs` violates this: in
`c6Settled` the record (token 0) is Completed and settled (in history, not
active), and after `cleanup_old_jobs` with a cutoff beyond its `end_time`
of 20 it is a member of *neither* collection. -/
theorem C6_counterexample :
    Settled c6Settled 0 ∧
    (jobAt c6Settled 0).map (fun j => j.status) =
      some ProcessingStatus.completed ∧
    (jobAt c6Settled 0).map (fun j => j.end_time) = some (some 20) ∧
    ¬ 0 ∈ (applyOp workOk (Op.cleanup 30) c6Settled).job_history ∧
    (∀ p ∈ (applyOp workOk (Op.cleanup 30) c6Settled).active_jobs,
      ¬ p.2 = 0) := by
  refine ⟨?_, by decide, by decide, by decide, by decide⟩
  unfold Settled
  decide

/-- C6 (amended).  From the moment a job's terminal transition completes —
an accepted cancellation, or the driver's completion block (through either
its normal path or its `KeyError` exception path) — the JobRecord is a
member of the history sequence and not of the active set, and this
configuration is preserved by every subsequent operation *except*
`cleanup_old_jobs`, which may evict the record from history and leave it
in neither collection (see the counterexample). -/
theorem C6_terminal_record_in_exactly_one_collection
    (work : String → Except String String) (op : Op) (s : PState)
    (tok : Nat) (h : TerminalFor op s tok ∨ Settled s tok)
    (hnc : ¬ op.isCleanup) : Settled (applyOp work op s) tok := by
  rcases h with h | h
  · cases op with
    | cancel id t =>
        obtain ⟨hl, hkey, hlen⟩ := h
        exact cancel_establishes_settled id t s tok hl hkey hlen
    | driverTerminal tok2 t wOk =>
        obtain ⟨heq, n, job, hph, hj, hkey⟩ := h
        subst heq
        exact driver_terminal_establishes_settled tok2 t wOk s n job hph
          hj hkey
    | submit tms paths analyses prompt => exact h.elim
    | driverStart tok2 t => exact h.elim
    | driverChunk tok2 => exact h.elim
    | cleanup cutoff => exact h.elim
  · exact settled_preserved work op s tok h hnc

/-- Witness for `C6_terminal_record_in_exactly_one_collection`: cancelling
the one active job of `c6Active` completes its terminal transition and
settles its record. -/
theorem C6_witness :
    ((TerminalFor (Op.cancel "batch_3000" 5) c6Active 0 ∨
        Settled c6Active 0) ∧
      ¬ (Op.cancel "batch_3000" 5).isCleanup) ∧
    Settled (applyOp workOk (Op.cancel "batch_3000" 5) c6Active) 0 := by
  have hterm : TerminalFor (Op.cancel "batch_3000" 5) c6Active 0 :=
    ⟨rfl, by decide, by decide⟩
  refine ⟨⟨Or.inl hterm, fun hcon => hcon⟩, ?_⟩
  exact C6_terminal_record_in_exactly_one_collection workOk
    (Op.cancel "batch_3000" 5) c6Active 0 (Or.inl hterm)
    (fun hcon => hcon)


/-! ## C8 -/

theorem dictLookup_some_mem (k : String) (v : Nat)
    (d : List (String × Nat)) (h : dictLookup k d = some v) :
    ∃ p ∈ d, p.1 = k ∧ p.2 = v := by
  unfold dictLookup at h
  cases hf : d.find? (fun p => p.1 = k) with
  | none => rw [hf] at h; simp at h
  | some q =>
      rw [hf] at h
      simp at h
      exact ⟨q, List.mem_of_find?_eq_some hf,
        by simpa using List.find?_some hf, h⟩

/-- C8 (confirmed).  `get_job_status` is total and never raises: for an id
neither in the active set nor matching any history record it returns the
distinguishable not-found result `None` (and conversely); for a known id it
returns the well-formed projection of the record — the active view when the
id is in the active set (checked first), otherwise the history view of the
first matching record.  `TokensValid` — active tokens are allocated — holds
of every reachable state. -/
theorem C8_get_job_status_total (s : PState) (id : String) (now : ℚ)
    (hwf : TokensValid s) :
    (get_job_status now s id = none ↔
      (dictLookup id s.active_jobs = none ∧
        (historyJobs s).find? (fun j => j.job_id = id) = none)) ∧
    (∀ tok job, dictLookup id s.active_jobs = some tok →
      jobAt s tok = some job →
      get_job_status now s id =
        some (StatusView.activeView job.job_id job.status.value job.progress
          job.file_paths.length job.results.length job.errors.length
          job.start_time (estimate_completion_time now job))) ∧
    (∀ job, dictLookup id s.active_jobs = none →
      (historyJobs s).find? (fun j => j.job_id = id) = some job →
      get_job_status now s id =
        some (StatusView.historyView job.job_id job.status.value
          job.progress job.file_paths.length job.results.length
          job.errors.length job.start_time job.end_time
          (processing_time_of job))) := by
  refine ⟨⟨?_, ?_⟩, ?_, ?_⟩
  · intro h
    cases hl : dictLookup id s.active_jobs with
    | some tok =>
        obtain ⟨p, hp, hp1, hp2⟩ := dictLookup_some_mem id tok _ hl
        have hlen : tok < s.jobs.length := hp2 ▸ hwf p hp
        have hj : jobAt s tok = some (s.jobs.get ⟨tok, hlen⟩) := by
          unfold jobAt
          simp only [List.get?_eq_getElem?]
          simp [List.getElem?_eq_getElem hlen]
        simp [get_job_status, hl, hj] at h
    | none =>
        refine ⟨rfl, ?_⟩
        cases hfind : (historyJobs s).find? (fun j => j.job_id = id) with
        | none => rfl
        | some j => simp [get_job_status, hl, hfind] at h
  · rintro ⟨h1, h2⟩
    simp [get_job_status, h1, h2]
  · intro tok job hl hj
    simp [get_job_status, hl, hj]
  · intro job hl hfind
    simp [get_job_status, hl, hfind]

/-- Witness for `C8_get_job_status_total`: querying the unknown id
`"nope"` against a state with one active job. -/
theorem C8_witness :
    TokensValid c8State ∧
    ((get_job_status 5 c8State "nope" = none ↔
      (dictLookup "nope" c8State.active_jobs = none ∧
        (historyJobs c8State).find? (fun j => j.job_id = "nope") = none)) ∧
    (∀ tok job, dictLookup "nope" c8State.active_jobs = some tok →
      jobAt c8State tok = some job →
      get_job_status 5 c8State "nope" =
        some (StatusView.activeView job.job_id job.status.value job.progress
          job.file_paths.length job.results.length job.errors.length
          job.start_time (estimate_completion_time 5 job))) ∧
    (∀ job, dictLookup "nope" c8State.active_jobs = none →
      (historyJobs c8State).find? (fun j => j.job_id = "nope") =
        some job →
      get_job_status 5 c8State "nope" =
        some (StatusView.historyView job.job_id job.status.value
          job.progress job.file_paths.length job.results.length
          job.errors.length job.start_time job.end_time
          (processing_time_of job)))) := by
  have hwf : TokensValid c8State := by
    unfold TokensValid
    decide
  exact ⟨hwf, C8_get_job_status_total c8State "nope" 5 hwf⟩

/-! ## C9 -/

/-- C9 (confirmed).  Persistence failure is isolated: the inner write can
fail (`writeResultsFile false` raises), but `_save_job_results` absorbs
the exception (returns normally for every write outcome), so the driver's
completion block produces exactly the same processor state — same job
status, same errors, same placement in history — whether or not the
result-file write succeeds. -/
theorem C9_persistence_failure_isolated (s : PState) (tok : Nat) (t : ℚ)
    (writeOk : Bool) :
    writeResultsFile false = Except.error "write failed" ∧
    save_job_results writeOk = Except.ok () ∧
    driver_terminal tok t writeOk s = driver_terminal tok t true s := by
  refine ⟨rfl, save_job_results_ok writeOk, ?_⟩
  unfold driver_terminal
  rw [save_job_results_ok writeOk, save_job_results_ok true]

end Phelomia
